import Mathlib

/-!
Verification development for the anim-rs animation library core.

The Rust source is shallowly embedded: `std::time::Duration` values and `f64`
normalized times are modelled as exact rationals (`ℚ`).  Every concrete input
used in the theorems below is a dyadic rational at which the corresponding
IEEE-754 `f64` computations of the source are exact, so the rational model
agrees bit-for-bit with the code on those inputs.  Rust's float-to-integer
`as` cast truncates toward zero, which `truncQ` mirrors; `debug_assert!` and
`panic!` sites are modelled as explicit predicates or `Option` results.
-/

namespace AnimRs

/-- The machine epsilon of `f64` (`f64::EPSILON` = 2^-52), as an exact rational. -/
def f64Epsilon : ℚ := 1 / 2 ^ 52

/-- The machine epsilon of `f32` (`f32::EPSILON` = 2^-23), as an exact rational. -/
def f32Epsilon : ℚ := 1 / 2 ^ 23

/-- Rust's float-to-integer `as` cast: truncation toward zero (for in-range values). -/
def truncQ (v : ℚ) : ℤ := if 0 ≤ v then ⌊v⌋ else ⌈v⌉

/-- From src/core/utils.rs, `check_time`: the condition of
`debug_assert!(time >= 0.0 || time <= 1.0)`.  The assertion fires exactly when
this predicate is `false`. -/
def checkTimeAssert (time : ℚ) : Bool := decide (0 ≤ time) || decide (time ≤ 1)

/-- From src/core/animatable.rs, the `impl_primitive!` integer arm of
`Animatable::animate`.  Rust's fixed-width integers are modelled as `ℤ`; for
normalized times in `[0,1]` the blend stays between the two endpoints, so no
`as`-cast saturation can occur and the unbounded model is faithful. -/
def intAnimate (fromVal toVal : ℤ) (time : ℚ) : ℤ :=
  if time = 0 then fromVal
  else if |1 - time| < f64Epsilon then toVal
  else if fromVal = toVal then fromVal
  else
    let v : ℚ := (fromVal : ℚ) * (1 - time) + (toVal : ℚ) * time
    if fromVal ≤ toVal then truncQ (v + 1 / 2) else truncQ (v - 1 / 2)

/-- From src/core/animatable.rs, the `impl_primitive!` float arm of
`Animatable::animate` (`eps` is `f32::EPSILON` or `f64::EPSILON` depending on
the type). -/
def floatAnimate (eps : ℚ) (fromVal toVal : ℚ) (time : ℚ) : ℚ :=
  if time = 0 then fromVal
  else if |1 - time| < f64Epsilon then toVal
  else if |fromVal - toVal| < eps then fromVal
  else (fromVal : ℚ) * (1 - time) + (toVal : ℚ) * time

/-- From src/core/animatable.rs, `impl Animatable for bool`. -/
def boolAnimate (fromVal toVal : Bool) (time : ℚ) : Bool :=
  if time < 1 then fromVal else toVal

/-- A Unicode scalar value, as tested by Rust's `char` iteration: any code
point outside the surrogate block `0xD800..=0xDFFF` and below `0x110000`. -/
def charIsValid (c : ℕ) : Bool :=
  decide (c < 0xD800) || (decide (0xE000 ≤ c) && decide (c < 0x110000))

/-- The list of scalar values produced by the Rust range `fromVal..=toVal` over
`char` (empty when `toVal < fromVal`; surrogates are skipped). -/
def charRange (fromVal toVal : ℕ) : List ℕ :=
  (List.range' fromVal (toVal + 1 - fromVal)).filter charIsValid

/-- From src/core/animatable.rs, `impl Animatable for char`, with characters
modelled by their code points.  `rng.nth(n)` is the `n`-th element of the
`char` range, `None` falling back to `fromVal`. -/
def charAnimate (fromVal toVal : ℕ) (time : ℚ) : ℕ :=
  if fromVal = toVal then fromVal
  else
    let idx := intAnimate (fromVal : ℤ) (toVal : ℤ) time
    let n : ℕ := if toVal < fromVal then ((fromVal : ℤ) - idx).toNat
                 else (idx - (fromVal : ℤ)).toNat
    match (charRange fromVal toVal)[n]? with
    | some c => c
    | none => fromVal

/-- From src/core/animatable.rs, the `impl_tuple!` rule: tuples animate
field-wise (shown for pairs; longer tuples iterate the same rule). -/
def pairAnimate {α β : Type} (animA : α → α → ℚ → α) (animB : β → β → ℚ → β)
    (fromVal toVal : α × β) (time : ℚ) : α × β :=
  (animA fromVal.1 toVal.1 time, animB fromVal.2 toVal.2 time)

/-- An animation node: the `BaseAnimation` trait of src/core/animation/mod.rs.
Both methods are pure; durations are rational milliseconds, `none` meaning
unbounded. -/
structure Anim (α : Type) where
  duration : Option ℚ
  animate : ℚ → α

/-- From src/core/options.rs, `RepeatBehavior` (`Count` holds an `f32`). -/
inductive RepeatBehavior where
  | Count (count : ℚ)
  | Forever

/-- From src/core/options.rs, the `Options` builder record.  The `animateVal`
field is the `T: Animatable` instance dictionary; `easing` is the injected
easing function (the linear easing of src/core/easing.rs is the identity). -/
structure Options (α : Type) where
  fromVal : α
  toVal : α
  auto_reverse : Bool
  skip : Option ℚ
  delay : Option ℚ
  duration : ℚ
  repeatB : RepeatBehavior
  easing : ℚ → ℚ
  animateVal : α → α → ℚ → α

/-- From src/core/animation/primitive.rs, the `duration` field computed by
`Primitive::new` (simple duration times repeat count, before delay and skip). -/
def primitiveBaseDuration {α : Type} (opt : Options α) : Option ℚ :=
  if opt.duration = 0 then some 0
  else
    match opt.repeatB with
    | .Count count => some (if 0 < count then opt.duration * count else 0)
    | .Forever => none

/-- From src/core/animation/primitive.rs, `Primitive::duration`: the base
duration extended by the delay and reduced by the skip (floored at zero). -/
def primitiveDuration {α : Type} (opt : Options α) : Option ℚ :=
  match primitiveBaseDuration opt with
  | none => none
  | some d0 =>
    let d1 := match opt.delay with
      | some delay => d0 + delay
      | none => d0
    let d2 := match opt.skip with
      | some skip => if skip < d1 then d1 - skip else 0
      | none => d1
    some d2

/-- The tail of src/core/animation/primitive.rs `Primitive::animate`:
normalize by the simple duration, split off the whole cycle count, map the
exact cycle boundary back to the end of the previous cycle, ease, then apply
the optional auto-reverse folding. -/
def primitiveCore {α : Type} (opt : Options α) (elapsed : ℚ) : α :=
  let time := elapsed / opt.duration
  let count := (⌊time⌋ : ℤ)
  let time1 := time - (count : ℚ)
  let time2 := if 0 < count ∧ time1 = 0 then 1 else time1
  let time3 := opt.easing time2
  if opt.auto_reverse then
    if 1 / 2 < time3 then opt.animateVal opt.toVal opt.fromVal (time3 * 2 - 1)
    else opt.animateVal opt.fromVal opt.toVal (time3 * 2)
  else opt.animateVal opt.fromVal opt.toVal time3

/-- From src/core/animation/primitive.rs, `Primitive::animate`: apply skip,
apply delay, return `from` for the degenerate zero duration, clamp at the
repeat limit, then evaluate the normalized-time core. -/
def primitiveAnimate {α : Type} (opt : Options α) (elapsed : ℚ) : α :=
  let e1 := match opt.skip with
    | some skip => elapsed + skip
    | none => elapsed
  let e2 := match opt.delay with
    | some delay => if delay < e1 then e1 - delay else 0
    | none => e1
  match primitiveBaseDuration opt with
  | some d =>
    if d = 0 then opt.fromVal
    else primitiveCore opt (if d < e2 then d else e2)
  | none => primitiveCore opt e2

/-- The `Primitive` animation node built from `Options` (`Options::build`). -/
def Primitive {α : Type} (opt : Options α) : Anim α :=
  ⟨primitiveDuration opt, primitiveAnimate opt⟩

/-- From src/core/animation/scale.rs, `Scale::duration`: the source duration
divided by the factor (zero duration or zero factor degenerate to zero). -/
def scaleDuration {α : Type} (src : Anim α) (scale : ℚ) : Option ℚ :=
  src.duration.map fun duration =>
    if duration = 0 ∨ scale = 0 then 0 else duration / scale

/-- From src/core/animation/scale.rs, `Scale::animate`: elapsed time divided
by the factor before delegating (factor zero evaluates the source at zero). -/
def scaleAnimate {α : Type} (src : Anim α) (scale : ℚ) (elapsed : ℚ) : α :=
  if scale = 0 then src.animate 0 else src.animate (elapsed / scale)

/-- The `Scale` combinator node (`Animation::scale`). -/
def Scale {α : Type} (src : Anim α) (scale : ℚ) : Anim α :=
  ⟨scaleDuration src scale, scaleAnimate src scale⟩

/-- From src/core/animation/repeat.rs, the `duration` field of `Repeat::new`:
count times the source duration, `none` for `Forever`, zero-length sources
degenerate to zero. -/
def repeatDuration {α : Type} (src : Anim α) (rep : RepeatBehavior) : Option ℚ :=
  src.duration.bind fun duration =>
    if duration = 0 then some 0
    else
      match rep with
      | .Count count => some (duration * count)
      | .Forever => none

/-- From src/core/animation/repeat.rs, `Repeat::animate`: clamp at the total
duration, split elapsed into cycles of the simple duration, map an exact
positive cycle boundary to the end of the previous cycle, and re-evaluate the
source at the fractional remainder scaled back to the simple duration. -/
def repeatAnimate {α : Type} (src : Anim α) (rep : RepeatBehavior) (elapsed : ℚ) : α :=
  match src.duration with
  | none => src.animate elapsed
  | some simple_duration =>
    let e := match repeatDuration src rep with
      | some duration => if duration < elapsed then duration else elapsed
      | none => elapsed
    let time := e / simple_duration
    let count := (⌊time⌋ : ℤ)
    let time1 := time - (count : ℚ)
    let time2 := if 0 < count ∧ time1 = 0 then 1 else time1
    src.animate (simple_duration * time2)

/-- The `Repeat` combinator node (`Animation::times` / `Animation::repeat`). -/
def Repeat {α : Type} (src : Anim α) (rep : RepeatBehavior) : Anim α :=
  ⟨repeatDuration src rep, repeatAnimate src rep⟩

/-- From src/core/animation/cache.rs, the clamp `Cache::animate` applies to
the requested elapsed time before consulting the memo slot. -/
def cacheClamp {α : Type} (src : Anim α) (elapsed : ℚ) : ℚ :=
  match src.duration with
  | some duration => if duration < elapsed then duration else elapsed
  | none => elapsed

/-- From src/core/animation/cache.rs, `Cache::animate`: single-slot memo.
Returns the produced value together with the new contents of the `RefCell`
slot (a hit leaves the slot unchanged; a miss recomputes and overwrites). -/
def cacheAnimate {α : Type} (src : Anim α) (cell : Option (ℚ × α)) (elapsed : ℚ) :
    α × Option (ℚ × α) :=
  let e := cacheClamp src elapsed
  match cell with
  | some (time, value) =>
    if time = e then (value, cell)
    else
      let v := src.animate e
      (v, some (e, v))
  | none =>
    let v := src.animate e
    (v, some (e, v))

/-- Runs a `Cache` node over a sequence of elapsed-time queries, threading the
memo slot, and collects the outputs (`Cache::new` starts from an empty slot). -/
def cacheRun {α : Type} (src : Anim α) : Option (ℚ × α) → List ℚ → List α
  | _, [] => []
  | cell, e :: rest =>
    let r := cacheAnimate src cell e
    r.1 :: cacheRun src r.2 rest

/-- From src/core/animation/seek.rs, `SeekFrom`. -/
inductive SeekFrom where
  | Begin (progress : ℚ)
  | End (progress : ℚ)
  | Percent (percent : ℚ)

/-- From src/core/animation/seek.rs, `Seek::new`: computes the absolute seek
progress, with the two panics (seeking from the end or by percent on an
unbounded source, and a percent outside `[-1, 1]`) modelled as `none`. -/
def seekNewProgress (srcDuration : Option ℚ) : SeekFrom → Option ℚ
  | .Begin progress => some progress
  | .End progress =>
    match srcDuration with
    | some duration => some (if progress < duration then duration - progress else 0)
    | none => none
  | .Percent percent =>
    if -1 ≤ percent ∧ percent ≤ 1 then
      match srcDuration with
      | some duration =>
        some (if percent < 0 then duration * (1 + percent) else duration * percent)
      | none => none
    else none

/-- The linear `f64` primitive of the spec's test vectors:
`Options::new(0.0, 1.0).duration(1000ms).easing(linear()).build()`. -/
def linearOptions : Options ℚ :=
  { fromVal := 0
    toVal := 1
    auto_reverse := false
    skip := none
    delay := none
    duration := 1000
    repeatB := .Count 1
    easing := id
    animateVal := floatAnimate f64Epsilon }

/-- The linear primitive as an animation node. -/
def linearAnim : Anim ℚ := Primitive linearOptions

namespace Timeline

/-- From src/core/timeline.rs, the public `Status` enum. -/
inductive Status where
  | Idle
  | Animating
  | Paused
  | Completed
deriving DecidableEq, Repr

/-- From src/core/timeline.rs, the private `State` enum.  `Instant` readings
are rational timestamps; `elapsed` is the accumulated play time before the
anchor instant. -/
inductive State where
  | Idle
  | Animating (time : ℚ) (elapsed : Option ℚ)
  | Paused (elapsed : Option ℚ)
  | Completed (elapsed : Option ℚ)
deriving DecidableEq, Repr

/-- The accumulation step `elapsed + time.elapsed()` shared by `stop`,
`pause` and `update_with_time`: fold the open interval `now - time` into the
accumulated elapsed. -/
def accumulate (time : ℚ) (elapsed : Option ℚ) (now : ℚ) : ℚ :=
  match elapsed with
  | some e => e + (now - time)
  | none => now - time

/-- From src/core/timeline.rs, `Timeline::begin`: unconditional restart,
anchored at the current instant with no accumulated elapsed. -/
def begin (now : ℚ) : State := .Animating now none

/-- From src/core/timeline.rs, `Timeline::stop`. -/
def stop (now : ℚ) (s : State) : State :=
  match s with
  | .Idle => s
  | .Completed _ => s
  | .Animating time elapsed => .Completed (some (accumulate time elapsed now))
  | .Paused elapsed => .Completed elapsed

/-- From src/core/timeline.rs, `Timeline::pause`: only effective while
animating. -/
def pause (now : ℚ) (s : State) : State :=
  match s with
  | .Animating time elapsed => .Paused (some (accumulate time elapsed now))
  | _ => s

/-- From src/core/timeline.rs, `Timeline::resume`: reopen the interval at the
current instant keeping the accumulated elapsed, or restart if not paused. -/
def resume (now : ℚ) (s : State) : State :=
  match s with
  | .Paused elapsed => .Animating now elapsed
  | _ => begin now

/-- From src/core/timeline.rs, `Timeline::status`. -/
def status (s : State) : Status :=
  match s with
  | .Idle => .Idle
  | .Animating _ _ => .Animating
  | .Paused _ => .Paused
  | .Completed _ => .Completed

/-- The `IsFinished` helper of src/core/animation/mod.rs:
`duration().map(|d| elapsed >= d).unwrap_or_default()`. -/
def isFinished {α : Type} (anim : Anim α) (elapsed : ℚ) : Bool :=
  match anim.duration with
  | some d => decide (d ≤ elapsed)
  | none => false

/-- From src/core/timeline.rs, `Timeline::update_with_time`: computes the
total accumulated elapsed while animating and transitions to `Completed` when
the wrapped animation reports finished; otherwise the state is untouched.
Returns the new state with the reported status. -/
def updateWithTime {α : Type} (anim : Anim α) (now : ℚ) (s : State) : State × Status :=
  match s with
  | .Idle => (s, .Idle)
  | .Animating time elapsed =>
    let e := accumulate time elapsed now
    if isFinished anim e then (.Completed (some e), .Completed)
    else (s, .Animating)
  | .Paused _ => (s, .Paused)
  | .Completed _ => (s, .Completed)

end Timeline

/-- The auto-reversed linear primitive of the spec's test vectors:
`Options::new(0.0, 1.0).duration(1000ms).easing(linear()).auto_reverse(true)`. -/
def reverseOptions : Options ℚ := { linearOptions with auto_reverse := true }

/-- C1.  The claim states that every combinator with `duration() = Some(d)`
clamps: `animate(e) = animate(d)` for all `e > d`.  The `Scale` combinator
violates it: `Scale::duration` divides the source duration by the factor
while `Scale::animate` divides elapsed time by the factor, so a factor-2
scale of the 1000 ms linear primitive reports `duration() = Some(500ms)` yet
`animate(1000ms) = 0.5 ≠ 0.25 = animate(500ms)` — the value keeps changing
long past the reported duration. -/
theorem C1_scale_duration_animate_mismatch :
    (Scale linearAnim 2).duration = some 500
    ∧ (Scale linearAnim 2).animate 1000 = 1 / 2
    ∧ (Scale linearAnim 2).animate 500 = 1 / 4
    ∧ (1 : ℚ) / 2 ≠ 1 / 4 := by
  refine ⟨?_, ?_, ?_, by norm_num⟩ <;>
    norm_num [Scale, scaleDuration, scaleAnimate, linearAnim, Primitive, primitiveAnimate,
      primitiveDuration, primitiveBaseDuration, primitiveCore,
      linearOptions, floatAnimate, f64Epsilon, abs_of_nonneg, abs_of_nonpos]

/-- C4.  The 1000 ms linear primitive repeated twice (`times(2.0)`, the
`Repeat` combinator): the exact cycle boundary at 1000 ms lands on the end of
the first cycle (value 1.0), 1500 ms gives 0.5, and 2000 ms and 2100 ms both
give the final value 1.0 (clamped). -/
theorem C4_repeat_cycle_boundary :
    (Repeat linearAnim (.Count 2)).animate 1000 = 1
    ∧ (Repeat linearAnim (.Count 2)).animate 1500 = 1 / 2
    ∧ (Repeat linearAnim (.Count 2)).animate 2000 = 1
    ∧ (Repeat linearAnim (.Count 2)).animate 2100 = 1 := by
  refine ⟨?_, ?_, ?_, ?_⟩ <;>
    norm_num [Repeat, repeatDuration, repeatAnimate, linearAnim, Primitive, primitiveAnimate,
      primitiveDuration, primitiveBaseDuration, primitiveCore,
      linearOptions, floatAnimate, f64Epsilon, abs_of_nonneg, abs_of_nonpos]

/-- C5.  The 1000 ms linear primitive with `auto_reverse(true)` plays
`from -> to` over the first half and `to -> from` over the second half:
0.5 at 250 ms, 1.0 at 500 ms, 0.5 at 750 ms and 0.0 at 1000 ms. -/
theorem C5_auto_reverse_symmetry :
    (Primitive reverseOptions).animate 250 = 1 / 2
    ∧ (Primitive reverseOptions).animate 500 = 1
    ∧ (Primitive reverseOptions).animate 750 = 1 / 2
    ∧ (Primitive reverseOptions).animate 1000 = 0 := by
  refine ⟨?_, ?_, ?_, ?_⟩ <;>
    norm_num [Primitive, primitiveAnimate, primitiveBaseDuration, primitiveCore,
      reverseOptions, linearOptions, floatAnimate, f64Epsilon, abs_of_nonneg, abs_of_nonpos]

/-- C3.  Timeline pause/resume scenario with an injected clock, wrapping the
bounded 1000 ms animation: `begin` at time 0, `pause` at 500 (folding the open
interval into the accumulated elapsed), an idle gap of arbitrary length `g`
while `Paused`, `resume` at `500 + g`, and `update` at `1000 + g`.  The update
reports `Completed` with accumulated elapsed exactly 1000 ms — the gap spent
in `Paused` never contributes (the claim's gap is `g = 10000`). -/
theorem C3_pause_resume_preserves_progress (g : ℚ) :
    Timeline.updateWithTime linearAnim (1000 + g)
      (Timeline.resume (500 + g) (Timeline.pause 500 (Timeline.begin 0))) =
    (Timeline.State.Completed (some 1000), Timeline.Status.Completed) := by
  norm_num [Timeline.updateWithTime, Timeline.resume, Timeline.pause, Timeline.begin,
    Timeline.accumulate, Timeline.isFinished, linearAnim, Primitive, primitiveDuration,
    primitiveBaseDuration, linearOptions]

/-- C7.  `Seek::new` fails loudly (modelled as `none`) instead of building a
node whenever it is asked to seek from the end of an unbounded source, to
seek by a percent outside `[-1, 1]` (for any source), or to seek by percent
on an unbounded source. -/
theorem C7_seek_construction_fails_loudly :
    (∀ progress : ℚ, seekNewProgress none (SeekFrom.End progress) = none)
    ∧ (∀ (percent : ℚ) (srcDuration : Option ℚ), percent < -1 ∨ 1 < percent →
        seekNewProgress srcDuration (SeekFrom.Percent percent) = none)
    ∧ (∀ percent : ℚ, seekNewProgress none (SeekFrom.Percent percent) = none) := by
  refine ⟨fun _ => rfl, ?_, ?_⟩
  · intro percent srcDuration h
    have h' : ¬ (-1 ≤ percent ∧ percent ≤ 1) := by
      rcases h with h | h
      · exact fun hc => absurd hc.1 (by linarith)
      · exact fun hc => absurd hc.2 (by linarith)
    simp [seekNewProgress, h']
  · intro percent
    simp only [seekNewProgress]
    split <;> rfl

/-- C7 witness: seeking by 200 percent on a bounded 1000 ms source is
rejected at construction. -/
theorem C7_seek_construction_fails_loudly_witness :
    seekNewProgress (some 1000) (SeekFrom.Percent 2) = none :=
  C7_seek_construction_fails_loudly.2.1 2 (some 1000) (Or.inr (by norm_num))

/-- C9.  The claim says `check_time`'s debug assertion rejects every `t`
outside `[0,1]` that reaches the interior branch.  In the source the
assertion is `debug_assert!(time >= 0.0 || time <= 1.0)` — a disjunction that
holds for every (non-NaN) `t`, so it can never fire; `t = 2.0` flows through
the interior branch of the integer `animate` unchecked and the extrapolated
value 20 (for endpoints 0 and 10) is returned. -/
theorem C9_check_time_never_fires :
    (∀ time : ℚ, checkTimeAssert time = true) ∧ intAnimate 0 10 2 = 20 := by
  constructor
  · intro time
    rcases le_or_lt 0 time with h | h
    · simp [checkTimeAssert, h]
    · have h' : time ≤ 1 := by linarith
      simp [checkTimeAssert, h']
  · norm_num [intAnimate, truncQ, f64Epsilon, abs_of_nonneg, abs_of_nonpos]

/-- C10.  `Timeline::stop` on an `Idle` timeline or an already `Completed`
timeline is a no-op: the state (including any frozen elapsed value) is
unchanged and `status()` still reports `Idle` (respectively `Completed`). -/
theorem C10_stop_noop_on_idle_and_completed (now : ℚ) (elapsed : Option ℚ) :
    Timeline.stop now Timeline.State.Idle = Timeline.State.Idle
    ∧ Timeline.stop now (Timeline.State.Completed elapsed) = Timeline.State.Completed elapsed
    ∧ Timeline.status (Timeline.stop now Timeline.State.Idle) = Timeline.Status.Idle
    ∧ Timeline.status (Timeline.stop now (Timeline.State.Completed elapsed)) =
        Timeline.Status.Completed :=
  ⟨rfl, rfl, rfl, rfl⟩

/-- C8 counterexample: in the interior branch, i32 endpoints `from = -10`,
`to = 0` at `t = 5/16` (exactly representable, all f64 steps exact) blend to
`-55/8 = -6.875`, whose nearest integers are `-7` (distance `1/8`); the code's
toward-zero cast of `v + 0.5` returns `-6`, at distance `7/8 > 1/2`, so the
result is not the nearest integer. -/
theorem C8_negative_blend_counterexample :
    intAnimate (-10) 0 (5 / 16) = -6
    ∧ (-10 : ℚ) * (1 - 5 / 16) + (0 : ℚ) * (5 / 16) = -55 / 8
    ∧ ¬ |(-6 : ℚ) - (-55 / 8)| ≤ 1 / 2 := by
  refine ⟨?_, by norm_num, by rw [abs_of_nonneg (by norm_num)]; norm_num⟩
  norm_num [intAnimate, truncQ, f64Epsilon, abs_of_nonneg, abs_of_nonpos, Int.ceil_neg]

/-- C8 (amended).  In the interior branch, the integer `animate` is the
toward-zero cast of `v + 1/2` (ascending) or `v - 1/2` (descending), where
`v` is the linear blend.  This equals an integer nearest to `v` whenever the
adjusted value does not cross zero — in particular whenever the endpoints are
both nonnegative in the ascending case, or both nonpositive in the descending
case.  (The original claim, which also covered negative blends, is refuted by
`C8_negative_blend_counterexample`.) -/
theorem C8_integer_round_nearest (fromVal toVal : ℤ) (time : ℚ)
    (h0 : time ≠ 0) (h1 : ¬ |1 - time| < f64Epsilon) (hne : fromVal ≠ toVal)
    (hlo : 0 ≤ time) (hhi : time ≤ 1)
    (hsign : (fromVal ≤ toVal ∧ 0 ≤ fromVal) ∨ (toVal < fromVal ∧ fromVal ≤ 0)) :
    |(intAnimate fromVal toVal time : ℚ) -
      ((fromVal : ℚ) * (1 - time) + (toVal : ℚ) * time)| ≤ 1 / 2 := by
  rw [intAnimate, if_neg h0, if_neg h1, if_neg hne]
  set v : ℚ := (fromVal : ℚ) * (1 - time) + (toVal : ℚ) * time with hv
  rcases hsign with ⟨hle, hf⟩ | ⟨hlt, hf⟩
  · have hf' : (0 : ℚ) ≤ (fromVal : ℚ) := by exact_mod_cast hf
    have hle' : (fromVal : ℚ) ≤ (toVal : ℚ) := by exact_mod_cast hle
    have hvpos : 0 ≤ v := by nlinarith
    rw [if_pos hle, truncQ, if_pos (by linarith : (0 : ℚ) ≤ v + 1 / 2)]
    have hfl : ((⌊v + 1 / 2⌋ : ℤ) : ℚ) ≤ v + 1 / 2 := Int.floor_le _
    have hfl' : v + 1 / 2 - 1 < ((⌊v + 1 / 2⌋ : ℤ) : ℚ) := Int.sub_one_lt_floor _
    rw [abs_le]
    constructor <;> linarith
  · have hf' : (fromVal : ℚ) ≤ 0 := by exact_mod_cast hf
    have hle' : (toVal : ℚ) ≤ (fromVal : ℚ) := by exact_mod_cast hlt.le
    have hvneg : v ≤ 0 := by nlinarith
    rw [if_neg (not_le.mpr hlt), truncQ,
      if_neg (by linarith : ¬ (0 : ℚ) ≤ v - 1 / 2)]
    have hcl : v - 1 / 2 ≤ ((⌈v - 1 / 2⌉ : ℤ) : ℚ) := Int.le_ceil _
    have hcl' : ((⌈v - 1 / 2⌉ : ℤ) : ℚ) < v - 1 / 2 + 1 := Int.ceil_lt_add_one _
    rw [abs_le]
    constructor <;> linarith

/-- C8 witness: ascending nonnegative endpoints 0 and 10 at `t = 1/2`
actually satisfy every hypothesis of `C8_integer_round_nearest`. -/
theorem C8_integer_round_nearest_witness :
    |(intAnimate 0 10 (1 / 2) : ℚ) - ((0 : ℚ) * (1 - 1 / 2) + (10 : ℚ) * (1 / 2))| ≤ 1 / 2 :=
  C8_integer_round_nearest 0 10 (1 / 2) (by norm_num)
    (by rw [show (1 : ℚ) - 1 / 2 = 1 / 2 by norm_num, abs_of_nonneg (by norm_num)]
        norm_num [f64Epsilon])
    (by norm_num) (by norm_num) (by norm_num) (Or.inl ⟨by norm_num, le_refl 0⟩)

/-- When every code point between the endpoints is a valid scalar value, the
char range is the plain arithmetic range. -/
lemma charRange_eq_range' (a b : ℕ)
    (hval : ∀ m, a ≤ m → m ≤ b → charIsValid m = true) :
    charRange a b = List.range' a (b + 1 - a) := by
  unfold charRange
  apply List.filter_eq_self.mpr
  intro m hm
  rw [List.mem_range'_1] at hm
  exact hval m hm.1 (by omega)

/-- Indexing the char range under the same validity assumption. -/
lemma charRange_getElem? (a b n : ℕ) (hn : n < b + 1 - a)
    (hval : ∀ m, a ≤ m → m ≤ b → charIsValid m = true) :
    (charRange a b)[n]? = some (a + n) := by
  rw [charRange_eq_range' a b hval, List.getElem?_range' a 1 hn, one_mul]

/-- The integer animate at the exact endpoints (used by the char animate). -/
lemma intAnimate_zero (a b : ℤ) : intAnimate a b 0 = a := by
  simp [intAnimate]

/-- The integer animate hits the epsilon shortcut at `t = 1` exactly. -/
lemma intAnimate_one (a b : ℤ) : intAnimate a b 1 = b := by
  norm_num [intAnimate, f64Epsilon]

/-- The descending char range is empty, so the char animate falls back to
`from` at every time. -/
lemma charAnimate_of_lt (a b : ℕ) (h : b < a) (time : ℚ) :
    charAnimate a b time = a := by
  have hab : a ≠ b := by omega
  have hrange : charRange a b = [] := by
    unfold charRange
    have : b + 1 - a = 0 := by omega
    rw [this]
    rfl
  simp [charAnimate, hab, hrange]

/-- C2 counterexample: `animate('e', 'a', 1.0)` returns `'e'`, not `'a'`.
With `from > to` the Rust range `from..=to` is empty, `nth` yields `None`,
and the implementation falls back to `from`, so the `t = 1` boundary identity
fails for `char` — the claim included the case `from > to`. -/
theorem C2_char_descending_counterexample :
    charAnimate 101 97 1 = 101 ∧ (101 : ℕ) ≠ 97 :=
  ⟨charAnimate_of_lt 101 97 (by norm_num) 1, by norm_num⟩

/-- C2 (amended).  Boundary identity `animate(from, to, 0) = from` and
`animate(from, to, 1) = to` holds exactly, including `from > to`, for all
integer types, both float types (any epsilon), `bool`, and field-wise for
tuples of types that satisfy it.  For `char`, `animate(from, to, 0) = from`
always holds, but `animate(from, to, 1) = to` holds only for `from ≤ to` with
both code points on the same side of the surrogate gap; when `from > to` the
char animate returns `from` for every `t` (see the counterexample). -/
theorem C2_boundary_identity :
    (∀ a b : ℤ, intAnimate a b 0 = a ∧ intAnimate a b 1 = b)
    ∧ (∀ eps a b : ℚ, floatAnimate eps a b 0 = a ∧ floatAnimate eps a b 1 = b)
    ∧ (∀ a b : Bool, boolAnimate a b 0 = a ∧ boolAnimate a b 1 = b)
    ∧ (∀ (α β : Type) (animA : α → α → ℚ → α) (animB : β → β → ℚ → β),
        (∀ a b, animA a b 0 = a ∧ animA a b 1 = b) →
        (∀ a b, animB a b 0 = a ∧ animB a b 1 = b) →
        ∀ p q : α × β, pairAnimate animA animB p q 0 = p ∧ pairAnimate animA animB p q 1 = q)
    ∧ (∀ a b : ℕ, charIsValid a = true → charAnimate a b 0 = a)
    ∧ (∀ a b : ℕ, a ≤ b → b < 0xD800 → charAnimate a b 1 = b)
    ∧ (∀ a b : ℕ, 0xE000 ≤ a → a ≤ b → b < 0x110000 → charAnimate a b 1 = b)
    ∧ (∀ (a b : ℕ) (time : ℚ), b < a → charAnimate a b time = a) := by
  refine ⟨?_, ?_, ?_, ?_, ?_, ?_, ?_, fun a b time h => charAnimate_of_lt a b h time⟩
  · exact fun a b => ⟨intAnimate_zero a b, intAnimate_one a b⟩
  · intro eps a b
    constructor
    · simp [floatAnimate]
    · norm_num [floatAnimate, f64Epsilon]
  · intro a b
    constructor
    · norm_num [boolAnimate]
    · norm_num [boolAnimate]
  · intro α β animA animB hA hB p q
    constructor
    · unfold pairAnimate
      rw [(hA p.1 q.1).1, (hB p.2 q.2).1]
    · unfold pairAnimate
      rw [(hA p.1 q.1).2, (hB p.2 q.2).2]
  · intro a b hvalid
    by_cases hab : a = b
    · simp [charAnimate, hab]
    · rcases Nat.lt_or_ge b a with hba | hba
      · exact charAnimate_of_lt a b hba 0
      · have hlt : a < b := by omega
        have hsucc : b + 1 - a = (b - a) + 1 := by omega
        simp only [charAnimate, if_neg hab, intAnimate_zero, if_neg (by omega : ¬ b < a)]
        rw [sub_self, Int.toNat_zero]
        unfold charRange
        rw [hsucc, List.range'_succ, List.filter_cons_of_pos hvalid,
          List.getElem?_cons_zero]
  · intro a b hab hb
    by_cases heq : a = b
    · subst heq
      simp [charAnimate]
    · have hlt : a < b := by omega
      have hn : ((b : ℤ) - (a : ℤ)).toNat = b - a := by omega
      simp only [charAnimate, if_neg heq, intAnimate_one, if_neg (by omega : ¬ b < a), hn]
      rw [charRange_getElem? a b (b - a) (by omega)
        (fun m _ hmb => by simp only [charIsValid]; simp; omega)]
      simp only [Option.some.injEq]
      omega
  · intro a b ha hab hb
    by_cases heq : a = b
    · subst heq
      simp [charAnimate]
    · have hlt : a < b := by omega
      have hn : ((b : ℤ) - (a : ℤ)).toNat = b - a := by omega
      simp only [charAnimate, if_neg heq, intAnimate_one, if_neg (by omega : ¬ b < a), hn]
      rw [charRange_getElem? a b (b - a) (by omega)
        (fun m hma hmb => by simp only [charIsValid]; simp; omega)]
      simp only [Option.some.injEq]
      omega

/-- C2 witness: the amended identities evaluated at concrete endpoints, t=1
on ascending chars `'a'..'e'` and an integer pair with `from > to`. -/
theorem C2_boundary_identity_witness :
    charAnimate 97 101 1 = 101 ∧ intAnimate 10 (-3) 1 = -3 :=
  ⟨C2_boundary_identity.2.2.2.2.2.1 97 101 (by norm_num) (by norm_num),
   (C2_boundary_identity.1 10 (-3)).2⟩

/-- The clamping contract of the core invariant: past the reported duration,
the animation keeps its final value. -/
def ClampedAnim {α : Type} (src : Anim α) : Prop :=
  ∀ d e, src.duration = some d → d < e → src.animate e = src.animate d

/-- For a clamp-consistent source, the pre-lookup clamp of `Cache::animate`
does not change the produced value. -/
lemma animate_cacheClamp {α : Type} (src : Anim α) (h : ClampedAnim src) (e : ℚ) :
    src.animate (cacheClamp src e) = src.animate e := by
  unfold cacheClamp
  cases hd : src.duration with
  | none => rfl
  | some d =>
    dsimp only
    split
    · exact (h d e hd (by assumption)).symm
    · rfl

/-- Invariant of the memo slot: any stored pair is a genuine evaluation of
the source. -/
def CellWF {α : Type} (src : Anim α) (cell : Option (ℚ × α)) : Prop :=
  ∀ t v, cell = some (t, v) → v = src.animate t

/-- One step of the cache agrees with the bare source and preserves the slot
invariant. -/
lemma cacheAnimate_spec {α : Type} (src : Anim α) (h : ClampedAnim src)
    (cell : Option (ℚ × α)) (hwf : CellWF src cell) (e : ℚ) :
    (cacheAnimate src cell e).1 = src.animate e
    ∧ CellWF src (cacheAnimate src cell e).2 := by
  unfold cacheAnimate
  cases cell with
  | none =>
    refine ⟨animate_cacheClamp src h e, ?_⟩
    intro t v hv
    simp only [Option.some.injEq, Prod.mk.injEq] at hv
    rw [← hv.1, hv.2]
  | some tv =>
    obtain ⟨t0, v0⟩ := tv
    dsimp only
    by_cases ht : t0 = cacheClamp src e
    · rw [if_pos ht]
      refine ⟨?_, hwf⟩
      rw [hwf t0 v0 rfl, ht, animate_cacheClamp src h]
    · rw [if_neg ht]
      refine ⟨animate_cacheClamp src h e, ?_⟩
      intro t v hv
      simp only [Option.some.injEq, Prod.mk.injEq] at hv
      rw [← hv.1, hv.2]

/-- Auxiliary induction for C6, generalized over any well-formed slot. -/
lemma cacheRun_eq_map_of_wf {α : Type} (src : Anim α) (h : ClampedAnim src) :
    ∀ (qs : List ℚ) (cell : Option (ℚ × α)), CellWF src cell →
      cacheRun src cell qs = qs.map src.animate := by
  intro qs
  induction qs with
  | nil => intro cell _; rfl
  | cons e rest ih =>
    intro cell hwf
    obtain ⟨h1, h2⟩ := cacheAnimate_spec src h cell hwf e
    calc cacheRun src cell (e :: rest)
        = (cacheAnimate src cell e).1 :: cacheRun src (cacheAnimate src cell e).2 rest := rfl
      _ = src.animate e :: rest.map src.animate := by rw [h1, ih _ h2]
      _ = (e :: rest).map src.animate := rfl

/-- C6 (amended).  For every source animation satisfying the clamping
contract of the core invariant, the `.cached()` wrapper (starting from the
empty slot of `Cache::new`) returns, query by query, exactly the values the
bare source would return for any sequence of elapsed-time queries.  (For a
source violating the contract the cache's internal clamp changes the answers:
see the counterexample.) -/
theorem C6_cache_transparent (α : Type) (src : Anim α) (h : ClampedAnim src)
    (qs : List ℚ) : cacheRun src none qs = qs.map src.animate :=
  cacheRun_eq_map_of_wf src h qs none (fun t v hv => by cases hv)

/-- The concrete linear 1000 ms primitive satisfies the clamping contract. -/
lemma linearAnim_clamped : ClampedAnim linearAnim := by
  intro d e hd hlt
  have hd' : d = 1000 := by
    have h1000 := hd
    norm_num [linearAnim, Primitive, primitiveDuration, primitiveBaseDuration,
      linearOptions] at h1000
    exact h1000.symm
  subst hd'
  show primitiveAnimate linearOptions e = primitiveAnimate linearOptions 1000
  simp only [primitiveAnimate, linearOptions]
  norm_num [primitiveBaseDuration]
  rw [if_pos hlt]

/-- C6 witness: the cache over the linear primitive reproduces the source
values on a concrete query sequence with a repeated query and an
over-duration query. -/
theorem C6_cache_transparent_witness :
    cacheRun linearAnim none [500, 500, 2000] = [1 / 2, 1 / 2, 1] := by
  rw [C6_cache_transparent ℚ linearAnim linearAnim_clamped [500, 500, 2000]]
  simp only [List.map_cons, List.map_nil]
  norm_num [linearAnim, Primitive, primitiveAnimate, primitiveBaseDuration, primitiveCore,
    linearOptions, floatAnimate, f64Epsilon, abs_of_nonneg, abs_of_nonpos]

/-- C6 counterexample: over the factor-2 `Scale` of the linear primitive
(whose reported duration, 500 ms, is inconsistent with its values), the
cached wrapper answers 0.25 to the query 1000 ms while the unwrapped source
answers 0.5 — the claim's universal functional equivalence fails. -/
theorem C6_cached_scale_counterexample :
    cacheRun (Scale linearAnim 2) none [1000] = [1 / 4]
    ∧ (Scale linearAnim 2).animate 1000 = 1 / 2
    ∧ ((1 : ℚ) / 4) ≠ 1 / 2 := by
  refine ⟨?_, ?_, by norm_num⟩ <;>
    norm_num [cacheRun, cacheAnimate, cacheClamp, Scale, scaleDuration, scaleAnimate,
      linearAnim, Primitive, primitiveAnimate, primitiveDuration, primitiveBaseDuration,
      primitiveCore, linearOptions, floatAnimate, f64Epsilon, abs_of_nonneg, abs_of_nonpos]

end AnimRs

